import Mathlib

/-!
Verification of the Kamisato Discord bot (Python) against its
natural-language specification, via a shallow embedding in Lean 4.

Python strings are modelled as Lean String values (Python len counts
code points, as does String.length).  Python None for the optional
prefix and suffix arguments of Paginator is modelled as the empty
string: the source only ever uses them through a falsy-coalescing
`x or ""`, which identifies None with "".
-/

namespace Kamisato

/-! ## Paginator, from src/kamisato/util.py lines 85-137 -/

/-- The zero-width space placeholder U200B of util.py line 25. -/
def U200B : String := "\u200B"

/-- State of a Paginator object (util.py lines 85-97).
Field pages_ models the private list _pages, current models
_current_page, pre and suf model prefix and suffix. -/
structure Paginator where
  maxSize : Nat
  pre : String
  suf : String
  pages_ : List String
  current : String
deriving Repr, DecidableEq

/-- A freshly constructed Paginator (util.py __init__, lines 86-97). -/
def Paginator.mkEmpty (maxSize : Nat) (pre suf : String) : Paginator :=
  ⟨maxSize, pre, suf, [], ""⟩

/-- util.py lines 99-100, method _into_fix.  The Python expression
`value or self._current_page or U200B` falls through on falsy (empty
or None) strings. -/
def Paginator.intoFix (p : Paginator) (value : String) : String :=
  p.pre ++ (if value = "" then (if p.current = "" then U200B else p.current) else value) ++ p.suf

/-- util.py lines 102-106, property pages. -/
def Paginator.pages (p : Paginator) : List String :=
  if p.current = "" then p.pages_ else p.pages_ ++ [p.intoFix ""]

/-- util.py lines 108-110, method next_page. -/
def Paginator.nextPage (p : Paginator) : Paginator :=
  { p with pages_ := p.pages_ ++ [p.intoFix ""], current := "" }

/-- util.py lines 112-119, method append.  A ValueError raise is
modelled as none; in Python the raise happens before any state
mutation, so the caller's object is unchanged on failure. -/
def Paginator.append (p : Paginator) (value : String) : Option Paginator :=
  if p.maxSize < (p.intoFix value).length then none
  else
    let q := if p.maxSize < (p.intoFix (p.current ++ value)).length then p.nextPage else p
    some { q with current := q.current ++ value }

/-- util.py lines 121-122, method appendln. -/
def Paginator.appendln (p : Paginator) (value : String) : Option Paginator :=
  p.append (value ++ "\n")

/-- util.py lines 130-137, method appendlines (both overloads reduce
to appending each string of a list in order). -/
def Paginator.appendlines (p : Paginator) (values : List String) : Option Paginator :=
  values.foldlM Paginator.append p

/-- A call in a client sequence against one Paginator. -/
inductive PagOp where
  | append (v : String)
  | appendln (v : String)
  | appendlines (vs : List String)
deriving Repr, DecidableEq

/-- The strings a call hands to the underlying append method, in
order (appendln v appends v followed by a newline). -/
def PagOp.values : PagOp → List String
  | .append v => [v]
  | .appendln v => [v ++ "\n"]
  | .appendlines vs => vs

/-- Run one call. -/
def Paginator.runOp (p : Paginator) : PagOp → Option Paginator
  | .append v => p.append v
  | .appendln v => p.appendln v
  | .appendlines vs => p.appendlines vs

/-- Run a sequence of calls; none models the first ValueError raised. -/
def Paginator.runOps (p : Paginator) (ops : List PagOp) : Option Paginator :=
  ops.foldlM Paginator.runOp p

/-- Embeds vs s: the strings vs occur in s, in order, as disjoint
contiguous substrings. -/
def Embeds : List String → String → Prop
  | [], _ => True
  | v :: vs, s => ∃ a b, s = a ++ (v ++ b) ∧ Embeds vs b

/-- Concatenation of a list of strings. -/
def sjoin : List String → String
  | [] => ""
  | s :: l => s ++ sjoin l

/-- Size invariant of a Paginator: every committed page fits in
maxSize, and so does the pending page once decorated. -/
def SizeInv (p : Paginator) : Prop :=
  (∀ s ∈ p.pages_, s.length ≤ p.maxSize) ∧
  (p.current ≠ "" → (p.intoFix "").length ≤ p.maxSize)

/-- Content invariant of a Paginator relative to the values appended
so far: a final segment of the values is exactly the pending page, and
the earlier values occur in order inside the committed pages. -/
def ContentInv (p : Paginator) (vs : List String) : Prop :=
  ∃ vs1 vs2, vs = vs1 ++ vs2 ∧ Embeds vs1 (sjoin p.pages_) ∧ p.current = sjoin vs2

/-! ## Calendar arithmetic, as in the Python datetime module -/

/-- Gregorian leap-year rule used by datetime. -/
def isLeap (y : Int) : Bool := y % 4 == 0 && (y % 100 != 0 || y % 400 == 0)

/-- Length of a month. -/
def daysInMonth (y : Int) : Nat → Nat
  | 2 => if isLeap y then 29 else 28
  | 4 => 30
  | 6 => 30
  | 9 => 30
  | 11 => 30
  | _ => 31

/-- A calendar date. -/
structure Date where
  year : Int
  month : Nat
  day : Nat
deriving Repr, DecidableEq

/-- The day range check datetime.datetime performs on construction
(month in 1..12, day in 1..days of that month); an out-of-range field
raises ValueError. -/
def Date.validB (d : Date) : Bool :=
  1 ≤ d.month && d.month ≤ 12 && 1 ≤ d.day && d.day ≤ daysInMonth d.year d.month

/-- Adding timedelta(days=1) to a valid date. -/
def Date.next (d : Date) : Date :=
  if d.day < daysInMonth d.year d.month then ⟨d.year, d.month, d.day + 1⟩
  else if d.month < 12 then ⟨d.year, d.month + 1, 1⟩
  else ⟨d.year + 1, 1, 1⟩

/-- Subtracting timedelta(days=1) from a valid date. -/
def Date.prev (d : Date) : Date :=
  if 1 < d.day then ⟨d.year, d.month, d.day - 1⟩
  else if 1 < d.month then ⟨d.year, d.month - 1, daysInMonth d.year (d.month - 1)⟩
  else ⟨d.year - 1, 12, 31⟩

/-- A wall-clock datetime in some fixed-offset zone, at minute
granularity (seconds and microseconds play no role in the claims). -/
structure LocalDT where
  date : Date
  hour : Nat
  minute : Nat
deriving Repr, DecidableEq

/-- The datetime.datetime(year, month, day, hour, minute) constructor:
none models the ValueError raised on an out-of-range field. -/
def mkDatetime (y : Int) (m d hh mm : Nat) : Option LocalDT :=
  if (Date.mk y m d).validB && hh ≤ 23 && mm ≤ 59 then some ⟨⟨y, m, d⟩, hh, mm⟩ else none

/-! ## Game-server regions and their zones

misc.py lines 31-35 binds the regions to the IANA zones Etc/GMT+5,
Etc/GMT-8 and Etc/GMT-1.  All three are fixed offsets with no daylight
saving. -/

inductive Region where
  | america
  | asia
  | europe
deriving Repr, DecidableEq

/-- Offset from UTC, in hours, of the IANA zone named Etc/GMT+n (for
negative n the name reads Etc/GMT-m): the Etc naming convention
inverts the sign, so Etc/GMT+5 denotes five hours behind UTC. -/
def etcGMT (n : Int) : Int := -n

/-- misc.py lines 31-35, the timezones table, as an offset in hours:
america is Etc/GMT+5, asia is Etc/GMT-8, europe is Etc/GMT-1. -/
def timezones : Region → Int
  | .america => etcGMT 5
  | .asia => etcGMT (-8)
  | .europe => etcGMT (-1)

/-- Absolute instants are minutes since the Unix epoch (1970-01-01
00:00 UTC, a Thursday).  Wall-clock minutes in a region's zone. -/
def localMinutes (r : Region) (t : Int) : Int := t + 60 * timezones r

/-- Minutes past local midnight. -/
def localTimeOfDay (r : Region) (t : Int) : Int := localMinutes r t % 1440

/-- Python weekday numbering of the local day: Monday is 0, Sunday is
6; the epoch day was a Thursday, weekday 3. -/
def localWeekday (r : Region) (t : Int) : Int := ((localMinutes r t).fdiv 1440 + 3) % 7

/-- timers.py lines 188, 196, 204: each region's recurring timer is
declared with tasks.loop(time=datetime.time(4, 0, 0, 0, tzinfo=zone)),
so it fires exactly at the instants whose wall clock in that zone
reads 04:00. -/
def timerFires (r : Region) (t : Int) : Prop := localTimeOfDay r t = 4 * 60

/-- Which reset callback a timer body runs. -/
inductive ResetCallback where
  | daily
  | weekly
deriving Repr, DecidableEq

/-- timers.py lines 189-194 (and 197-202, 205-210): the timer body
reads the current local weekday and runs _weekly_callback when it is 0
(Monday), otherwise _daily_callback. -/
def timerCallback (r : Region) (t : Int) : ResetCallback :=
  if localWeekday r t = 0 then .weekly else .daily

/-! ## The /server today reset computation (C7)

misc.py lines 107-112, Miscellaneous.today: take the current local
time, step back one day when the local hour is before 4, then build
datetime(today.year, today.month, today.day + 1, 4, 0, 0, 0, tz).
The final astimezone(UTC) only re-labels the instant and is dropped
here. -/
def todayReset (now : LocalDT) : Option LocalDT :=
  let today := if now.hour < 4 then now.date.prev else now.date
  mkDatetime today.year today.month (today.day + 1) 4 0

/-- Modelled from the spec (C7): the next occurrence of 04:00 local
time, local times before 04:00 belonging to the previous game day. -/
def nextReset0400 (now : LocalDT) : LocalDT :=
  if now.hour < 4 then ⟨now.date, 4, 0⟩ else ⟨now.date.next, 4, 0⟩

/-! ## The daily-reminder confirmation time (C8)

timers.py lines 238-242, Timers.daily: after a successful insert the
command computes now in the server's zone, adds one day when
now.hour > 4, and reports datetime(now.year, now.month, now.day, 4)
(again the astimezone(UTC) re-labelling is dropped). -/
def dailyConfirmationReset (now : LocalDT) : LocalDT :=
  if 4 < now.hour then ⟨now.date.next, 4, 0⟩ else ⟨now.date, 4, 0⟩

/-- Modelled from the spec (C8): the claimed reported time, today's
04:00 when that instant has not yet passed, else tomorrow's 04:00. -/
def claimedDailyConfirmationReset (now : LocalDT) : LocalDT :=
  if now.hour * 60 + now.minute ≤ 4 * 60 then ⟨now.date, 4, 0⟩ else ⟨now.date.next, 4, 0⟩

/-! ## The reminder slash commands and their database errors (C3) -/

inductive ReminderKind where
  | daily
  | weekly
deriving Repr, DecidableEq

/-- The other reminder kind. -/
def ReminderKind.other : ReminderKind → ReminderKind
  | .daily => .weekly
  | .weekly => .daily

/-- A row of daily_reminder or weekly_reminder: userid (primary key),
the repeat flag, channelid. -/
structure ReminderRow where
  userid : Nat
  rep : Bool
  channelid : Nat
deriving Repr, DecidableEq

/-- The tables the reminder commands touch: user_config (userid to
server region, userid unique) and the two reminder tables. -/
structure TimersDb where
  userConfig : List (Nat × String)
  dailyRem : List ReminderRow
  weeklyRem : List ReminderRow
deriving Repr, DecidableEq

def TimersDb.table (db : TimersDb) : ReminderKind → List ReminderRow
  | .daily => db.dailyRem
  | .weekly => db.weeklyRem

def TimersDb.setTable (db : TimersDb) : ReminderKind → List ReminderRow → TimersDb
  | .daily, t => { db with dailyRem := t }
  | .weekly, t => { db with weeklyRem := t }

/-- The server region configured for a user, if any. -/
def lookupServer (db : TimersDb) (uid : Nat) : Option String :=
  (db.userConfig.find? (fun e => e.1 == uid)).map (fun e => e.2)

inductive DbError where
  | foreignKeyViolation
  | uniqueViolation
deriving Repr, DecidableEq

/-- QUERY_INSERT_REMINDER (timers.py lines 46-57): insert one row into
the {kind}_reminder table and return the inserting user's server from
user_config.  The reminder tables carry a uniqueness constraint on
userid and a foreign key from userid to user_config, so a duplicate
userid raises UniqueViolationError and a userid with no user_config
row raises ForeignKeyViolationError.  When both constraints are
violated at once the model reports the uniqueness one; the theorems
only ever condition on the reported error, so nothing below depends on
that ordering. -/
def insertReminder (db : TimersDb) (kind : ReminderKind) (uid : Nat) (rep : Bool) (ch : Nat) :
    Except DbError (TimersDb × String) :=
  if (db.table kind).any (fun r => r.userid == uid) then .error .uniqueViolation
  else
    match lookupServer db uid with
    | none => .error .foreignKeyViolation
    | some server => .ok (db.setTable kind (db.table kind ++ [⟨uid, rep, ch⟩]), server)

/-- The user-facing message a reminder command sends. -/
inductive ReminderMsg where
  | failure
  | cancelled
  | confirmation (server : String) (rep : Bool)
deriving Repr, DecidableEq

/-- The daily (timers.py lines 218-245) and weekly (lines 249-278)
commands, database part: attempt the insert inside a transaction; on
ForeignKeyViolationError the transaction is rolled back and a failure
message is sent; on UniqueViolationError the transaction is rolled
back, the existing row of the same kind for that user is deleted
(DELETE FROM {kind}_reminder WHERE userid=$1) and a cancellation
message is sent; on success a confirmation is sent. -/
def reminderCommand (db : TimersDb) (kind : ReminderKind) (uid : Nat) (rep : Bool) (ch : Nat) :
    TimersDb × ReminderMsg :=
  match insertReminder db kind uid rep ch with
  | .error .foreignKeyViolation => (db, .failure)
  | .error .uniqueViolation =>
      (db.setTable kind ((db.table kind).filter (fun r => r.userid != uid)), .cancelled)
  | .ok (db', server) => (db', .confirmation server rep)

/-! ## The data import command (C4)

data.py lines 81-100, Data._import: read the attachment, json.loads
it; a JSONDecodeError is caught and reported, the handler returning
before any database access; a ValueError from save_data is caught and
reported after the save transaction rolled back; otherwise a success
summary is sent. -/

inductive ImportMsg where
  | decodeError
  | saveError (debug : String)
  | success (artifacts weapons characters : Nat)
deriving Repr, DecidableEq

/-- The import command over an abstract store of type α and abstract
decoded payloads of type β; decoded is the outcome of json.loads on
the attachment bytes (none models JSONDecodeError) and save models
save_data, returning the updated store and the three counts or a
ValueError text. -/
def importCommand {α β : Type} (decoded : Option β)
    (save : β → α → Except String (α × Nat × Nat × Nat)) (db : α) : α × ImportMsg :=
  match decoded with
  | none => (db, .decodeError)
  | some d =>
      match save d db with
      | .error e => (db, .saveError e)
      | .ok (db', a, w, c) => (db', .success a w c)

/-! ## The developer cog access check (C9) -/

/-- dev.py line 37. -/
def MAYA_ID : Nat := 455289384187592704

/-- dev.py lines 99-100, Developers.interaction_check: the cog-wide
check the framework runs before any command body of the cog. -/
def interaction_check (userId : Nat) : Bool := userId == MAYA_ID

/-! ## The custom-reminder polling loop (C2, C5) -/

/-- A row of the custom_reminder table (columns per the query at
timers.py lines 116-122 and the schema note at lines 291-296). -/
structure CustomReminder where
  uid : Nat
  userid : Nat
  channelid : Nat
  created : Int
  target : Int
  message : String
  expires : Int
deriving Repr, DecidableEq

/-- The leftmost row of least expires (an ORDER BY ... LIMIT 1 with an
unspecified tie order; ties go to the earlier row here). -/
def minByExpires : List CustomReminder → Option CustomReminder
  | [] => none
  | r :: rs =>
      match minByExpires rs with
      | none => some r
      | some m => if m.expires < r.expires then some m else some r

/-- timers.py lines 116-123: SELECT ... FROM custom_reminder WHERE
expires < CURRENT_DATE + 40 days ORDER BY expires LIMIT 1.  The
horizon argument stands for CURRENT_DATE + 40 days at the iteration's
poll instant. -/
def selectDue (rows : List CustomReminder) (horizon : Int) : Option CustomReminder :=
  minByExpires (rows.filter (fun r => r.expires < horizon))

/-- State of the polling loop: the live custom_reminder rows, whether
the _custom_reminder_active event is set, and the reminders dispatched
so far, in dispatch order. -/
structure LoopState where
  rows : List CustomReminder
  active : Bool
  dispatched : List CustomReminder
deriving Repr, DecidableEq

/-- One iteration of _reminder_loop (timers.py lines 114-145).  With
the event clear the loop is parked in wait (nothing happens until the
event is set again); with the event set it polls: no row within the
horizon clears the event, otherwise the loop sleeps until the selected
row's target, deletes the row by uid in a transaction, and then
attempts the notification (a send failure is skipped but the deletion
stands, so dispatched records every selected row either way). -/
def loopStep (s : LoopState) (horizon : Int) : LoopState :=
  if s.active = false then s
  else
    match selectDue s.rows horizon with
    | none => { s with active := false }
    | some r =>
        { rows := s.rows.filter (fun x => x.uid != r.uid)
          active := s.active
          dispatched := s.dispatched ++ [r] }

/-- A run of successive iterations; the horizon list carries the value
of CURRENT_DATE + 40 days seen by each iteration. -/
def loopRun (s : LoopState) : List Int → LoopState
  | [] => s
  | h :: hs => loopRun (loopStep s h) hs

/-- Dispatch-order invariant: the dispatched list is nondecreasing in
expires and every live row expires no earlier than anything already
dispatched. -/
def DispatchInv (s : LoopState) : Prop :=
  List.Chain' (fun a b => a.expires ≤ b.expires) s.dispatched ∧
  ∀ d ∈ s.dispatched, ∀ r ∈ s.rows, d.expires ≤ r.expires

/-- The connection-loss errors the loop's final except clause catches
(timers.py line 148). -/
inductive ConnLossError where
  | osError
  | connectionClosed
  | postgresConnectionError
deriving Repr, DecidableEq

/-- How one execution of _reminder_loop can finish (timers.py lines
113-149): cancellation, a caught connection-loss error, or any other
uncaught exception. -/
inductive LoopExit where
  | cancelled
  | connLoss (e : ConnLossError)
  | otherError
deriving Repr, DecidableEq

/-- The polling task slot of the Timers cog: a generation counter for
the task object and whether some polling task is alive. -/
structure ReminderTaskState where
  generation : Nat
  running : Bool
deriving Repr, DecidableEq

/-- timers.py lines 100-103, _ensure_reminder_loop: cancel whatever
task is in the slot and put a freshly created polling task there. -/
def ensureReminderLoop (s : ReminderTaskState) : ReminderTaskState :=
  ⟨s.generation + 1, true⟩

/-- timers.py lines 146-149: except CancelledError re-raises (the task
ends, nothing restarts it); except (OSError, ConnectionClosed,
PostgresConnectionError) calls _ensure_reminder_loop; an exception
matching neither clause propagates and the task ends. -/
def afterExit (s : ReminderTaskState) : LoopExit → ReminderTaskState
  | .cancelled => ⟨s.generation, false⟩
  | .connLoss _ => ensureReminderLoop s
  | .otherError => ⟨s.generation, false⟩

end Kamisato

namespace Kamisato

/-! ## Theorems: Paginator -/

theorem sjoin_append (l1 l2 : List String) : sjoin (l1 ++ l2) = sjoin l1 ++ sjoin l2 := by
  induction l1 with
  | nil => simp [sjoin, String.empty_append]
  | cons s l ih => simp [sjoin, ih, String.append_assoc]

theorem embeds_append_left {vs : List String} {s : String} (A : String) (h : Embeds vs s) :
    Embeds vs (A ++ s) := by
  cases vs with
  | nil => trivial
  | cons v vs =>
      obtain ⟨a, b, hs, hrest⟩ := h
      exact ⟨A ++ a, b, by rw [hs, String.append_assoc], hrest⟩

theorem embeds_concat {xs : List String} :
    ∀ {ys : List String} {A B : String}, Embeds xs A → Embeds ys B → Embeds (xs ++ ys) (A ++ B) := by
  induction xs with
  | nil => intro ys A B _ hB; simpa using embeds_append_left A hB
  | cons v xs ih =>
      intro ys A B hA hB
      obtain ⟨a, b, hs, hrest⟩ := hA
      refine ⟨a, b ++ B, ?_, ih hrest hB⟩
      rw [hs]
      simp [String.append_assoc]

theorem embeds_sjoin (vs : List String) :
    ∀ pre suf : String, Embeds vs (pre ++ (sjoin vs ++ suf)) := by
  induction vs with
  | nil => intro pre suf; trivial
  | cons v vs ih =>
      intro pre suf
      refine ⟨pre, sjoin vs ++ suf, ?_, ?_⟩
      · simp [sjoin, String.append_assoc]
      · have h := ih "" suf
        rwa [String.empty_append] at h

theorem embeds_self (vs : List String) : Embeds vs (sjoin vs) := by
  have h := embeds_sjoin vs "" ""
  rwa [String.empty_append, String.append_empty] at h

theorem append_inv {p q : Paginator} {vs : List String} {v : String}
    (hS : SizeInv p) (hC : ContentInv p vs) (h : p.append v = some q) :
    SizeInv q ∧ ContentInv q (vs ++ [v]) ∧
      q.maxSize = p.maxSize ∧ q.pre = p.pre ∧ q.suf = p.suf := by
  obtain ⟨vs1, vs2, hvs, hE, hcur⟩ := hC
  simp only [Paginator.append] at h
  split_ifs at h with h1 h2
  · -- overflow branch: the pending page is committed first
    simp only [Paginator.nextPage, Option.some.injEq] at h
    subst h
    have hv : v ≠ "" := by
      intro hv0
      subst hv0
      rw [String.append_empty] at h2
      rcases em (p.current = "") with hc | hc
      · exact h1 (by simpa [Paginator.intoFix, hc] using h2)
      · exact h1 (by simpa [Paginator.intoFix, hc] using h2)
    have hc : p.current ≠ "" := by
      intro hc0
      rw [hc0, String.empty_append] at h2
      exact h1 h2
    refine ⟨⟨?_, ?_⟩, ?_, rfl, rfl, rfl⟩
    · intro s hs
      simp only [List.mem_append, List.mem_singleton] at hs
      rcases hs with hs | hs
      · exact hS.1 s hs
      · subst hs; exact hS.2 hc
    · intro _
      have : (Paginator.intoFix { p with pages_ := p.pages_ ++ [p.intoFix ""], current := "" ++ v } "") =
          p.intoFix v := by
        simp [Paginator.intoFix, String.empty_append, hv]
      rw [this]
      exact le_of_not_lt h1
    · refine ⟨vs1 ++ vs2, [v], by simp [hvs], ?_, by simp [sjoin, String.empty_append, String.append_empty]⟩
      rw [sjoin_append]
      refine embeds_concat hE ?_
      have hfix : p.intoFix "" = p.pre ++ (sjoin vs2 ++ p.suf) := by
        simp [Paginator.intoFix, hc, ← hcur, String.append_assoc]
      simp only [sjoin, String.append_empty]
      rw [hfix]
      exact embeds_sjoin vs2 p.pre p.suf
  · -- no overflow: the value is appended to the pending page
    simp only [Option.some.injEq] at h
    subst h
    refine ⟨⟨hS.1, ?_⟩, ?_, rfl, rfl, rfl⟩
    · intro hne
      have : (Paginator.intoFix { p with current := p.current ++ v } "") =
          p.intoFix (p.current ++ v) := by
        simp [Paginator.intoFix, hne]
      rw [this]
      exact le_of_not_lt h2
    · refine ⟨vs1, vs2 ++ [v], by simp [hvs], hE, ?_⟩
      simp [sjoin_append, sjoin, String.append_empty, hcur]

theorem appendlines_inv {ws : List String} :
    ∀ {p q : Paginator} {vs : List String}, SizeInv p → ContentInv p vs →
      p.appendlines ws = some q →
      SizeInv q ∧ ContentInv q (vs ++ ws) ∧
        q.maxSize = p.maxSize ∧ q.pre = p.pre ∧ q.suf = p.suf := by
  induction ws with
  | nil =>
      intro p q vs hS hC h
      simp only [Paginator.appendlines, List.foldlM] at h
      cases h
      exact ⟨hS, by simpa using hC, rfl, rfl, rfl⟩
  | cons w ws ih =>
      intro p q vs hS hC h
      simp only [Paginator.appendlines, List.foldlM_cons, Option.bind_eq_bind,
        Option.bind_eq_some] at h
      obtain ⟨p', hp', hrest⟩ := h
      obtain ⟨hS', hC', hm, hpre, hsuf⟩ := append_inv hS hC hp'
      obtain ⟨hS'', hC'', hm', hpre', hsuf'⟩ := ih hS' hC' hrest
      refine ⟨hS'', by simpa using hC'', by rw [hm', hm], by rw [hpre', hpre], by rw [hsuf', hsuf]⟩

theorem runOp_inv {p q : Paginator} {vs : List String} {op : PagOp}
    (hS : SizeInv p) (hC : ContentInv p vs) (h : p.runOp op = some q) :
    SizeInv q ∧ ContentInv q (vs ++ op.values) ∧
      q.maxSize = p.maxSize ∧ q.pre = p.pre ∧ q.suf = p.suf := by
  cases op with
  | append v => exact append_inv hS hC h
  | appendln v => exact append_inv hS hC h
  | appendlines ws => exact appendlines_inv hS hC h

theorem runOps_inv {ops : List PagOp} :
    ∀ {p q : Paginator} {vs : List String}, SizeInv p → ContentInv p vs →
      p.runOps ops = some q →
      SizeInv q ∧ ContentInv q (vs ++ (ops.map PagOp.values).flatten) ∧
        q.maxSize = p.maxSize ∧ q.pre = p.pre ∧ q.suf = p.suf := by
  induction ops with
  | nil =>
      intro p q vs hS hC h
      simp only [Paginator.runOps, List.foldlM] at h
      cases h
      exact ⟨hS, by simpa using hC, rfl, rfl, rfl⟩
  | cons op ops ih =>
      intro p q vs hS hC h
      simp only [Paginator.runOps, List.foldlM_cons, Option.bind_eq_bind,
        Option.bind_eq_some] at h
      obtain ⟨p', hp', hrest⟩ := h
      obtain ⟨hS', hC', hm, hpre, hsuf⟩ := runOp_inv hS hC hp'
      obtain ⟨hS'', hC'', hm', hpre', hsuf'⟩ := ih hS' hC' hrest
      refine ⟨hS'', ?_, by rw [hm', hm], by rw [hpre', hpre], by rw [hsuf', hsuf]⟩
      simpa [List.append_assoc] using hC''

/-- C6: for every Paginator and every sequence of append, appendln and
appendlines calls that completes without raising, every string in the
resulting pages tuple (its prefix and suffix included) has length at
most max_size, and the concatenation of all the pages contains every
appended string, in order. -/
theorem c6_pages_bounded_and_contain_all_values
    (maxSize : Nat) (pre suf : String) (ops : List PagOp) (p : Paginator)
    (h : (Paginator.mkEmpty maxSize pre suf).runOps ops = some p) :
    (∀ s ∈ p.pages, s.length ≤ maxSize) ∧
      Embeds (ops.map PagOp.values).flatten (sjoin p.pages) := by
  have hS0 : SizeInv (Paginator.mkEmpty maxSize pre suf) := by
    constructor
    · intro s hs; simp [Paginator.mkEmpty] at hs
    · intro hne; exact absurd rfl hne
  have hC0 : ContentInv (Paginator.mkEmpty maxSize pre suf) [] :=
    ⟨[], [], rfl, trivial, rfl⟩
  obtain ⟨hS, hC, hm, hpre, hsuf⟩ := runOps_inv hS0 hC0 h
  rw [List.nil_append] at hC
  obtain ⟨vs1, vs2, hvs, hE, hcur⟩ := hC
  rcases em (p.current = "") with hc | hc
  · have hp : p.pages = p.pages_ := by simp [Paginator.pages, hc]
    constructor
    · intro s hs
      rw [hp] at hs
      have := hS.1 s hs
      rwa [hm] at this
    · have h2 : Embeds vs2 "" := by
        have he := embeds_self vs2
        rwa [← hcur, hc] at he
      have := embeds_concat hE h2
      rw [String.append_empty] at this
      rw [hp, hvs]
      exact this
  · have hp : p.pages = p.pages_ ++ [p.intoFix ""] := by simp [Paginator.pages, hc]
    constructor
    · intro s hs
      rw [hp] at hs
      simp only [List.mem_append, List.mem_singleton] at hs
      rcases hs with hs | hs
      · have := hS.1 s hs
        rwa [hm] at this
      · subst hs
        have := hS.2 hc
        rwa [hm] at this
    · rw [hp, sjoin_append, hvs]
      simp only [sjoin, String.append_empty]
      refine embeds_concat hE ?_
      have hfix : p.intoFix "" = p.pre ++ (sjoin vs2 ++ p.suf) := by
        simp [Paginator.intoFix, hc, ← hcur, String.append_assoc]
      rw [hfix]
      exact embeds_sjoin vs2 p.pre p.suf

/-- Witness for c6_pages_bounded_and_contain_all_values on a concrete
run: two calls, the second forcing a page commit. -/
theorem c6_pages_bounded_witness :
    (∀ s ∈ (Paginator.mk 5 "(" ")" ["(ab)"] "c\n").pages, s.length ≤ 5) ∧
      Embeds (([PagOp.append "ab", PagOp.appendln "c"].map PagOp.values).flatten)
        (sjoin (Paginator.mk 5 "(" ")" ["(ab)"] "c\n").pages) :=
  c6_pages_bounded_and_contain_all_values 5 "(" ")"
    [PagOp.append "ab", PagOp.appendln "c"] (Paginator.mk 5 "(" ")" ["(ab)"] "c\n") (by rfl)

/-- C10 counterexample: on a Paginator with max_size 0 and no prefix or
suffix, appending the empty string raises (the embedded append returns
none) although the appended string together with the prefix and the
suffix has length 0, which does not exceed max_size: the raise
condition measures the zero-width-space placeholder, not the appended
string, when the appended string and the pending page are empty. -/
theorem c10_append_raise_counterexample :
    (Paginator.mkEmpty 0 "" "").append "" = none ∧
      ("" ++ ("" ++ "")).length ≤ (Paginator.mkEmpty 0 "" "").maxSize := by
  exact ⟨rfl, by decide⟩

/-- C10 amended: append raises exactly when the prefix, the effective
value and the suffix together exceed max_size, where the effective
value is the appended string when nonempty, otherwise the pending page
when nonempty, otherwise the zero-width-space placeholder; and a
non-raising append either extends the pending page with the value or
commits the pending page unchanged as a new page and starts the
pending page as the value, so no previously appended text is ever
discarded (on a raise no state was mutated, since in the source the
raise precedes every assignment). -/
theorem c10_append_characterization (p : Paginator) (v : String) :
    (p.append v = none ↔
      p.maxSize <
        (p.pre ++ ((if v = "" then (if p.current = "" then U200B else p.current) else v) ++ p.suf)).length) ∧
    (∀ q, p.append v = some q →
      (q.pages_ = p.pages_ ∧ q.current = p.current ++ v) ∨
      (q.pages_ = p.pages_ ++ [p.intoFix ""] ∧ q.current = v)) := by
  have hassoc : p.pre ++ ((if v = "" then (if p.current = "" then U200B else p.current) else v) ++ p.suf) =
      p.intoFix v := by
    simp [Paginator.intoFix, String.append_assoc]
  rw [hassoc]
  simp only [Paginator.append]
  split_ifs with h1 h2
  · exact ⟨by simp [h1], by intro q hq; cases hq⟩
  · refine ⟨by simp [h1], ?_⟩
    intro q hq
    simp only [Paginator.nextPage, Option.some.injEq] at hq
    subst hq
    exact Or.inr ⟨rfl, String.empty_append v⟩
  · refine ⟨by simp [h1], ?_⟩
    intro q hq
    simp only [Option.some.injEq] at hq
    subst hq
    exact Or.inl ⟨rfl, rfl⟩

/-- Witness for c10_append_characterization on a concrete non-raising
append extending the pending page. -/
theorem c10_append_characterization_witness :
    ((⟨5, "", "", [], "abcd"⟩ : Paginator).pages_ = (⟨5, "", "", [], "ab"⟩ : Paginator).pages_ ∧
        (⟨5, "", "", [], "abcd"⟩ : Paginator).current = (⟨5, "", "", [], "ab"⟩ : Paginator).current ++ "cd") ∨
      ((⟨5, "", "", [], "abcd"⟩ : Paginator).pages_ =
          (⟨5, "", "", [], "ab"⟩ : Paginator).pages_ ++ [(⟨5, "", "", [], "ab"⟩ : Paginator).intoFix ""] ∧
        (⟨5, "", "", [], "abcd"⟩ : Paginator).current = "cd") :=
  (c10_append_characterization ⟨5, "", "", [], "ab"⟩ "cd").2 ⟨5, "", "", [], "abcd"⟩ (by rfl)

/-! ## Theorems: timers and reset times -/

/-- C1: for every game-server region the recurring timer fires at
04:00 wall-clock time in the region's fixed zone, whose UTC offset is
-5 hours for america, +8 for asia and +1 for europe, and on each
firing the body runs the weekly callback exactly when the local
weekday is Monday (Python weekday 0) and the daily callback on every
other weekday. -/
theorem c1_region_timers_fire_at_four_local (r : Region) (t : Int) (h : timerFires r t) :
    (timezones .america = -5 ∧ timezones .asia = 8 ∧ timezones .europe = 1) ∧
    localTimeOfDay r t = 4 * 60 ∧
    (timerCallback r t = .weekly ↔ localWeekday r t = 0) ∧
    (timerCallback r t = .daily ↔ localWeekday r t ≠ 0) := by
  refine ⟨by decide, h, ?_, ?_⟩
  · unfold timerCallback
    split_ifs with hw
    · simp [hw]
    · simp [hw]
  · unfold timerCallback
    split_ifs with hw
    · simp [hw]
    · simp [hw]

/-- Witness for c1_region_timers_fire_at_four_local: the instant 240
minutes before the epoch reads 04:00 on the asia clock (UTC+8), a
Thursday there, so the daily callback is selected. -/
theorem c1_region_timers_witness :
    (timezones .america = -5 ∧ timezones .asia = 8 ∧ timezones .europe = 1) ∧
    localTimeOfDay .asia (-240) = 4 * 60 ∧
    (timerCallback .asia (-240) = .weekly ↔ localWeekday .asia (-240) = 0) ∧
    (timerCallback .asia (-240) = .daily ↔ localWeekday .asia (-240) ≠ 0) :=
  c1_region_timers_fire_at_four_local .asia (-240)
    (show localTimeOfDay .asia (-240) = 4 * 60 by decide)

/-- C7 (code bug): the /server today handler builds
datetime(year, month, day + 1, 4) from the computed game day, which
raises ValueError whenever that game day is the last day of its month
(here the handler evaluates to none both at local 2022-01-31 12:00 and
at local 2022-02-01 03:00, whose game day is 2022-01-31), although the
next occurrence of 04:00 local exists on every date (2022-02-01 04:00
in both cases); on other dates the handler agrees with that next
occurrence, as the 2022-01-30 12:00 evaluation shows. -/
theorem c7_today_reset_fails_at_month_end :
    todayReset ⟨⟨2022, 1, 31⟩, 12, 0⟩ = none ∧
    todayReset ⟨⟨2022, 2, 1⟩, 3, 0⟩ = none ∧
    nextReset0400 ⟨⟨2022, 1, 31⟩, 12, 0⟩ = ⟨⟨2022, 2, 1⟩, 4, 0⟩ ∧
    nextReset0400 ⟨⟨2022, 2, 1⟩, 3, 0⟩ = ⟨⟨2022, 2, 1⟩, 4, 0⟩ ∧
    todayReset ⟨⟨2022, 1, 30⟩, 12, 0⟩ = some ⟨⟨2022, 1, 31⟩, 4, 0⟩ ∧
    todayReset ⟨⟨2022, 1, 30⟩, 12, 0⟩ = some (nextReset0400 ⟨⟨2022, 1, 30⟩, 12, 0⟩) := by
  decide

/-- C8 counterexample: at local time 04:30 the daily command reports
04:00 of the same day, an instant that has already passed, while the
claim demands the next day's 04:00: the source guard is
now.hour > 4 where the claim requires the comparison against the full
04:00 instant. -/
theorem c8_confirmation_time_counterexample :
    dailyConfirmationReset ⟨⟨2022, 3, 15⟩, 4, 30⟩ = ⟨⟨2022, 3, 15⟩, 4, 0⟩ ∧
    claimedDailyConfirmationReset ⟨⟨2022, 3, 15⟩, 4, 30⟩ = ⟨⟨2022, 3, 16⟩, 4, 0⟩ ∧
    dailyConfirmationReset ⟨⟨2022, 3, 15⟩, 4, 30⟩ ≠
      claimedDailyConfirmationReset ⟨⟨2022, 3, 15⟩, 4, 30⟩ := by
  decide

/-- C8 amended: the confirmation reports today's 04:00 when the local
hour is at most 4 and tomorrow's 04:00 when it exceeds 4; this equals
the claimed next daily reset at every local time outside the interval
(04:00, 05:00), while inside that interval today's already-passed
04:00 is reported. -/
theorem c8_confirmation_time_amended (now : LocalDT) (hmin : now.minute ≤ 59) :
    (now.hour ≠ 4 ∨ now.minute = 0 →
      dailyConfirmationReset now = claimedDailyConfirmationReset now) ∧
    (now.hour = 4 → dailyConfirmationReset now = ⟨now.date, 4, 0⟩) := by
  constructor
  · intro hcase
    unfold dailyConfirmationReset claimedDailyConfirmationReset
    rcases Nat.lt_trichotomy now.hour 4 with hlt | heq | hgt
    · rw [if_neg (by omega), if_pos (by omega)]
    · rcases hcase with hne | hz
      · exact absurd heq hne
      · rw [if_neg (by omega), if_pos (by omega)]
    · rw [if_pos hgt, if_neg (by omega)]
  · intro h4
    unfold dailyConfirmationReset
    rw [if_neg (by omega)]

/-- Witness for c8_confirmation_time_amended at local 10:00. -/
theorem c8_confirmation_time_witness :
    dailyConfirmationReset ⟨⟨2022, 3, 15⟩, 10, 0⟩ =
      claimedDailyConfirmationReset ⟨⟨2022, 3, 15⟩, 10, 0⟩ :=
  (c8_confirmation_time_amended ⟨⟨2022, 3, 15⟩, 10, 0⟩ (by decide)).1 (Or.inl (by decide))

/-! ## Theorems: developer access check, data import, loop restart -/

/-- C9: the Developers cog check passes exactly for the user id
455289384187592704 and returns false for every other id; the framework
runs a cog's interaction_check before every command body of the cog,
so each developer command body runs only for that user. -/
theorem c9_dev_access_check (uid : Nat) :
    (interaction_check uid = true ↔ uid = 455289384187592704) ∧
    (uid ≠ 455289384187592704 → interaction_check uid = false) := by
  constructor
  · simp [interaction_check, MAYA_ID]
  · intro h
    simp [interaction_check, MAYA_ID, h]

/-- Witness for c9_dev_access_check: the guild id of the bot's home
server is not the developer id, so the check rejects it. -/
theorem c9_dev_access_check_witness : interaction_check 639770490755612672 = false :=
  (c9_dev_access_check 639770490755612672).2 (by decide)

/-- C4: whatever the store holds and whatever save_data would do, an
attachment whose bytes fail JSON decoding makes the import command
send the decode-error message and return with the store unchanged. -/
theorem c4_import_decode_error_reported {α β : Type}
    (save : β → α → Except String (α × Nat × Nat × Nat)) (db : α) :
    importCommand (none : Option β) save db = (db, ImportMsg.decodeError) := rfl

/-- C5 counterexample: an uncaught exception that is neither a
cancellation nor one of the three connection-loss types also leaves
the polling loop dead without a restart, so explicit cancellation is
not the only way the loop stops without restart. -/
theorem c5_restart_counterexample :
    afterExit ⟨7, true⟩ .otherError = ⟨7, false⟩ ∧
    (afterExit ⟨7, true⟩ .otherError).running = false ∧
    LoopExit.otherError ≠ LoopExit.cancelled := by
  decide

/-- C5 amended: when the polling loop terminates with a
connection-loss error (OS error, gateway connection closed, database
connection error) a fresh polling task replaces it; explicit
cancellation ends it without restart, and so does any other uncaught
exception. -/
theorem c5_restart_policy_amended (s : ReminderTaskState) :
    (∀ e, afterExit s (.connLoss e) = ⟨s.generation + 1, true⟩ ∧
      (afterExit s (.connLoss e)).running = true) ∧
    afterExit s .cancelled = ⟨s.generation, false⟩ ∧
    afterExit s .otherError = ⟨s.generation, false⟩ := by
  exact ⟨fun e => ⟨rfl, rfl⟩, rfl, rfl⟩

/-! ## Theorems: reminder command error handling (C3) -/

/-- C3: for both the daily and the weekly command, a foreign-key
violation from the insert (which occurs exactly when the user has no
configured server and no existing reminder of this kind) makes the
command send the failure message and leave every table unchanged,
while a uniqueness violation (which occurs exactly when the user
already has a reminder of this kind) makes the command delete
precisely that user's rows of the same kind, touching neither the
other reminder table nor user_config, and send the cancellation
message. -/
theorem c3_reminder_command_error_handling
    (db : TimersDb) (kind : ReminderKind) (uid : Nat) (rep : Bool) (ch : Nat) :
    (insertReminder db kind uid rep ch = .error .foreignKeyViolation →
      reminderCommand db kind uid rep ch = (db, .failure)) ∧
    (insertReminder db kind uid rep ch = .error .uniqueViolation →
      reminderCommand db kind uid rep ch =
        (db.setTable kind ((db.table kind).filter (fun r => r.userid != uid)), .cancelled) ∧
      (reminderCommand db kind uid rep ch).1.table kind.other = db.table kind.other ∧
      (reminderCommand db kind uid rep ch).1.userConfig = db.userConfig ∧
      (∀ row ∈ db.table kind, row.userid ≠ uid →
        row ∈ (reminderCommand db kind uid rep ch).1.table kind) ∧
      (∀ row ∈ (reminderCommand db kind uid rep ch).1.table kind,
        row ∈ db.table kind ∧ row.userid ≠ uid)) ∧
    (insertReminder db kind uid rep ch = .error .foreignKeyViolation ↔
      lookupServer db uid = none ∧ ¬ (db.table kind).any (fun r => r.userid == uid)) ∧
    (insertReminder db kind uid rep ch = .error .uniqueViolation ↔
      (db.table kind).any (fun r => r.userid == uid)) := by
  refine ⟨?_, ?_, ?_, ?_⟩
  · intro h
    unfold reminderCommand
    rw [h]
  · intro h
    have hcmd : reminderCommand db kind uid rep ch =
        (db.setTable kind ((db.table kind).filter (fun r => r.userid != uid)), .cancelled) := by
      unfold reminderCommand
      rw [h]
    have htab : (db.setTable kind ((db.table kind).filter (fun r => r.userid != uid))).table kind.other
        = db.table kind.other ∧
        (db.setTable kind ((db.table kind).filter (fun r => r.userid != uid))).userConfig = db.userConfig := by
      cases kind <;> simp [TimersDb.setTable, TimersDb.table, ReminderKind.other]
    refine ⟨hcmd, ?_, ?_, ?_, ?_⟩
    · rw [hcmd]
      exact htab.1
    · rw [hcmd]
      exact htab.2
    · intro row hrow hne
      rw [hcmd]
      have hmem : row ∈ (db.table kind).filter (fun r => r.userid != uid) :=
        List.mem_filter.mpr ⟨hrow, by simpa using hne⟩
      cases kind <;> simpa [TimersDb.setTable, TimersDb.table] using hmem
    · intro row hrow
      rw [hcmd] at hrow
      have hmem : row ∈ (db.table kind).filter (fun r => r.userid != uid) := by
        cases kind <;> simpa [TimersDb.setTable, TimersDb.table] using hrow
      have := List.mem_filter.mp hmem
      exact ⟨this.1, by simpa using this.2⟩
  · unfold insertReminder
    rcases hany : (db.table kind).any (fun r => r.userid == uid) with _ | _
    · rw [if_neg (by simp [hany])]
      cases hl : lookupServer db uid <;> simp [hl, hany]
    · rw [if_pos (by simp [hany])]
      simp [hany]
  · unfold insertReminder
    rcases hany : (db.table kind).any (fun r => r.userid == uid) with _ | _
    · rw [if_neg (by simp [hany])]
      cases hl : lookupServer db uid <;> simp [hl, hany]
    · rw [if_pos (by simp [hany])]
      simp [hany]

/-- Witness for c3_reminder_command_error_handling: a store where user
1 is on asia with a daily reminder; user 3 (no config) gets the
failure message with nothing changed, and a second daily registration
by user 1 deletes the existing row and reports cancellation. -/
theorem c3_reminder_command_witness :
    reminderCommand ⟨[(1, "asia")], [⟨1, false, 9⟩], []⟩ .daily 3 false 9 =
      (⟨[(1, "asia")], [⟨1, false, 9⟩], []⟩, .failure) ∧
    reminderCommand ⟨[(1, "asia")], [⟨1, false, 9⟩], []⟩ .daily 1 true 9 =
      (⟨[(1, "asia")], [], []⟩, .cancelled) :=
  ⟨(c3_reminder_command_error_handling ⟨[(1, "asia")], [⟨1, false, 9⟩], []⟩ .daily 3 false 9).1 (by rfl),
   ((c3_reminder_command_error_handling ⟨[(1, "asia")], [⟨1, false, 9⟩], []⟩ .daily 1 true 9).2.1 (by rfl)).1⟩

/-! ## Theorems: the custom-reminder polling loop (C2) -/

theorem minByExpires_mem : ∀ {rs : List CustomReminder} {r : CustomReminder},
    minByExpires rs = some r → r ∈ rs := by
  intro rs
  induction rs with
  | nil => intro r h; cases h
  | cons a as ih =>
      intro r h
      simp only [minByExpires] at h
      cases hm : minByExpires as with
      | none =>
          rw [hm] at h
          dsimp only at h
          simp only [Option.some.injEq] at h
          subst h
          exact List.mem_cons_self a as
      | some m =>
          rw [hm] at h
          dsimp only at h
          split_ifs at h with hlt
          · simp only [Option.some.injEq] at h
            subst h
            exact List.mem_cons_of_mem a (ih hm)
          · simp only [Option.some.injEq] at h
            subst h
            exact List.mem_cons_self a as

theorem minByExpires_ne_none (a : CustomReminder) (as : List CustomReminder) :
    minByExpires (a :: as) ≠ none := by
  simp only [minByExpires]
  cases minByExpires as with
  | none => simp
  | some m => dsimp only; split_ifs <;> simp

theorem minByExpires_min : ∀ (rs : List CustomReminder) (r : CustomReminder),
    minByExpires rs = some r → ∀ x ∈ rs, r.expires ≤ x.expires := by
  intro rs
  induction rs with
  | nil => intro r h; cases h
  | cons a as ih =>
      intro r h x hx
      simp only [minByExpires] at h
      cases hm : minByExpires as with
      | none =>
          rw [hm] at h
          dsimp only at h
          simp only [Option.some.injEq] at h
          subst h
          cases as with
          | nil =>
              rcases List.mem_cons.mp hx with rfl | hx'
              · exact le_refl _
              · cases hx'
          | cons b bs => exact absurd hm (minByExpires_ne_none b bs)
      | some m =>
          rw [hm] at h
          dsimp only at h
          split_ifs at h with hlt
          · simp only [Option.some.injEq] at h
            subst h
            rcases List.mem_cons.mp hx with rfl | hx'
            · exact le_of_lt hlt
            · exact ih m hm x hx'
          · simp only [Option.some.injEq] at h
            subst h
            rcases List.mem_cons.mp hx with rfl | hx'
            · exact le_refl _
            · exact le_trans (le_of_not_lt hlt) (ih m hm x hx')

theorem selectDue_some {rows : List CustomReminder} {horizon : Int} {r : CustomReminder}
    (h : selectDue rows horizon = some r) :
    r ∈ rows ∧ r.expires < horizon ∧
      ∀ x ∈ rows, x.expires < horizon → r.expires ≤ x.expires := by
  unfold selectDue at h
  have hmem := List.mem_filter.mp (minByExpires_mem h)
  refine ⟨hmem.1, by simpa using hmem.2, ?_⟩
  intro x hx hxh
  exact minByExpires_min _ _ h x (List.mem_filter.mpr ⟨hx, by simpa using hxh⟩)

theorem filter_ne_uid_eq_erase : ∀ {rows : List CustomReminder} {r : CustomReminder},
    (rows.map CustomReminder.uid).Nodup → r ∈ rows →
    rows.filter (fun x => x.uid != r.uid) = rows.erase r := by
  intro rows
  induction rows with
  | nil => intro r _ hr; cases hr
  | cons a as ih =>
      intro r hnd hr
      rw [List.map_cons, List.nodup_cons] at hnd
      obtain ⟨hna, hnd'⟩ := hnd
      rcases List.mem_cons.mp hr with rfl | hr'
      · rw [List.erase_cons_head, List.filter_cons, if_neg (by simp)]
        refine List.filter_eq_self.mpr ?_
        intro x hx
        have : x.uid ≠ r.uid := by
          intro hequ
          exact hna (hequ ▸ List.mem_map_of_mem CustomReminder.uid hx)
        simpa using this
      · have hne : a ≠ r := by
          rintro rfl
          exact hna (List.mem_map_of_mem CustomReminder.uid hr')
        have hneu : a.uid ≠ r.uid := by
          intro hequ
          exact hna (hequ ▸ List.mem_map_of_mem CustomReminder.uid hr')
        rw [List.erase_cons_tail (by simpa using hne), List.filter_cons,
          if_pos (by simpa using hneu), ih hnd' hr']

theorem loopStep_dispatchInv {s : LoopState} (hInv : DispatchInv s) (h : Int) :
    DispatchInv (loopStep s h) := by
  unfold loopStep
  split_ifs with hact
  · exact hInv
  · cases hsel : selectDue s.rows h with
    | none => exact ⟨hInv.1, fun d hd r hr => hInv.2 d hd r hr⟩
    | some r =>
        obtain ⟨hmem, hlt, hmin⟩ := selectDue_some hsel
        constructor
        · refine List.chain'_append.mpr ⟨hInv.1, List.chain'_singleton r, ?_⟩
          intro x hx y hy
          simp only [List.head?_cons, Option.mem_def, Option.some.injEq] at hy
          subst hy
          obtain ⟨hne, hxeq⟩ := List.mem_getLast?_eq_getLast hx
          exact hxeq ▸ hInv.2 _ (List.getLast_mem hne) r hmem
        · intro d hd rr hrr
          rw [List.mem_append] at hd
          have hrr' : rr ∈ s.rows := List.mem_of_mem_filter hrr
          rcases hd with hd | hd
          · exact hInv.2 d hd rr hrr'
          · simp only [List.mem_singleton] at hd
            subst hd
            rcases lt_or_le rr.expires h with hlt' | hge
            · exact hmin rr hrr' hlt'
            · exact le_trans (le_of_lt hlt) hge

theorem loopRun_dispatchInv : ∀ (hs : List Int) (s : LoopState),
    DispatchInv s → DispatchInv (loopRun s hs) := by
  intro hs
  induction hs with
  | nil => intro s hI; exact hI
  | cons h hs ih => intro s hI; exact ih _ (loopStep_dispatchInv hI h)

/-- C2: the polling loop dispatches custom reminders in nondecreasing
order of expiry (whatever horizons the successive polls see); each
iteration with the activity event set selects, among the rows expiring
before the horizon, one of least expiry, sleeps until its target,
deletes exactly that row (under the primary-key uniqueness of uid) and
appends it to the dispatch sequence; when no such row exists the
iteration clears the activity event and dispatches nothing, after
which iterations leave the state untouched until the event is set
again, so the loop parks instead of busy-polling. -/
theorem c2_reminder_loop_priority_order
    (rows : List CustomReminder) (active : Bool) (horizons : List Int) :
    List.Chain' (fun a b => a.expires ≤ b.expires)
      (loopRun ⟨rows, active, []⟩ horizons).dispatched ∧
    (∀ (s : LoopState) (h : Int) (r : CustomReminder),
      s.active = true → selectDue s.rows h = some r →
        r ∈ s.rows ∧ r.expires < h ∧
        (∀ x ∈ s.rows, x.expires < h → r.expires ≤ x.expires) ∧
        ((s.rows.map CustomReminder.uid).Nodup → (loopStep s h).rows = s.rows.erase r) ∧
        (loopStep s h).dispatched = s.dispatched ++ [r]) ∧
    (∀ (s : LoopState) (h : Int), s.active = true → selectDue s.rows h = none →
      loopStep s h = { s with active := false }) ∧
    (∀ (s : LoopState) (h : Int), s.active = false → loopStep s h = s) := by
  refine ⟨?_, ?_, ?_, ?_⟩
  · exact (loopRun_dispatchInv horizons ⟨rows, active, []⟩
      ⟨List.chain'_nil, fun d hd => absurd hd (List.not_mem_nil d)⟩).1
  · intro s h r hact hsel
    obtain ⟨hmem, hlt, hmin⟩ := selectDue_some hsel
    refine ⟨hmem, hlt, hmin, ?_, ?_⟩
    · intro hnd
      unfold loopStep
      rw [if_neg (by simp [hact]), hsel]
      exact filter_ne_uid_eq_erase hnd hmem
    · unfold loopStep
      rw [if_neg (by simp [hact]), hsel]
  · intro s h hact hsel
    unfold loopStep
    rw [if_neg (by simp [hact]), hsel]
  · intro s h hact
    unfold loopStep
    rw [if_pos hact]

/-- Witness for c2_reminder_loop_priority_order: two live rows; the
one with the earlier expiry (uid 2, expires 30) is selected, deleted
and dispatched first. -/
theorem c2_reminder_loop_witness :
    ((⟨2, 11, 21, 0, 3, "b", 30⟩ : CustomReminder) ∈
      [(⟨1, 10, 20, 0, 5, "a", 50⟩ : CustomReminder), ⟨2, 11, 21, 0, 3, "b", 30⟩]) ∧
    (loopStep ⟨[⟨1, 10, 20, 0, 5, "a", 50⟩, ⟨2, 11, 21, 0, 3, "b", 30⟩], true, []⟩ 100).rows =
      [⟨1, 10, 20, 0, 5, "a", 50⟩] ∧
    (loopStep ⟨[⟨1, 10, 20, 0, 5, "a", 50⟩, ⟨2, 11, 21, 0, 3, "b", 30⟩], true, []⟩ 100).dispatched =
      [⟨2, 11, 21, 0, 3, "b", 30⟩] := by
  have hc := (c2_reminder_loop_priority_order
      [⟨1, 10, 20, 0, 5, "a", 50⟩, ⟨2, 11, 21, 0, 3, "b", 30⟩] true [100]).2.1
      ⟨[⟨1, 10, 20, 0, 5, "a", 50⟩, ⟨2, 11, 21, 0, 3, "b", 30⟩], true, []⟩ 100
      ⟨2, 11, 21, 0, 3, "b", 30⟩ rfl (by decide)
  refine ⟨hc.1, ?_, ?_⟩
  · rw [hc.2.2.2.1 (by decide)]
    decide
  · rw [hc.2.2.2.2]
    rfl

end Kamisato

